import Mathlib

/-!
Verification development for the `SmartObfuscator` control-flow obfuscation
engine (file `SmartObfuscator.py`).  Code text is modelled as `List Char`;
Python's ambient randomness is modelled by explicit oracle arguments: every
`random.randint` / `random.choice` / `random.random()` draw of the source
becomes an explicit parameter (indices are reduced modulo the size of the
range they are drawn from, so an arbitrary natural number represents a draw
from the correct range).  A function whose Python counterpart can loop on
randomness receives the (finite) list of draws it consumes and returns
`none` when that list is exhausted.
-/

set_option maxRecDepth 20000

/-- Code text, modelled as a list of characters. -/
abbrev Text := List Char

/-- The opening brace character. -/
def lbrace : Char := '\x7b'

/-- The closing brace character. -/
def rbrace : Char := '\x7d'

/-- Python's `\s` (ASCII whitespace, as used by `re` on this input class). -/
def isPyWs (c : Char) : Bool :=
  c = ' ' || c = '\t' || c = '\n' || c = '\r' || c = '\x0b' || c = '\x0c'

/-- Decimal rendering of a natural number, as Python string formatting does. -/
def natText (n : Nat) : Text :=
  (Nat.repr n).toList

/-- Match a literal character sequence at the head of the input, returning
the remaining suffix on success (`re` literal matching). -/
def matchSeq : Text → Text → Option Text
  | [], l => some l
  | _ :: _, [] => none
  | p :: ps, c :: cs => if p = c then matchSeq ps cs else none

/-- Match the pattern `object\s*"runtime"\s*\x7b` at the head of the input
(`re.search` anchored at one position).  `\s*` before a non-whitespace
literal is equivalent to consuming the maximal whitespace run. -/
def matchRuntimeAt (l : Text) : Option Text :=
  (matchSeq ("object".toList) l).bind fun r1 =>
    (matchSeq ("\"runtime\"".toList) (r1.dropWhile isPyWs)).bind fun r2 =>
      matchSeq [lbrace] (r2.dropWhile isPyWs)

/-- Match the pattern `code\s*\x7b` at the head of the input. -/
def matchCodeAt (l : Text) : Option Text :=
  (matchSeq ("code".toList) l).bind fun r1 =>
    matchSeq [lbrace] (r1.dropWhile isPyWs)

/-- Leftmost search (`re.search`): try the matcher at every position from the
left and return the suffix that remains after the first match. -/
def searchRem (m : Text → Option Text) : Text → Option Text
  | [] => m []
  | c :: t =>
    match m (c :: t) with
    | some r => some r
    | none => searchRem m t

/-- One depth update of the character loop of `_split_main_logic`:
`+1` on `\x7b`, `-1` on `\x7d`. -/
def depthUpd (d : Int) (c : Char) : Int :=
  if c = lbrace then d + 1 else if c = rbrace then d - 1 else d

/-- The character loop of `_split_main_logic` (lines 92-104): walk the text
after the prolog tracking brace depth; each character joins `main_logic`
when the updated depth is positive and `epilog` otherwise. -/
def splitDepth : Int → Text → Text × Text
  | _, [] => ([], [])
  | d, c :: cs =>
    let p := splitDepth (depthUpd d c) cs
    if depthUpd d c ≤ 0 then (p.1, c :: p.2) else (c :: p.1, p.2)

/-- The two `ValueError` conditions of `_split_main_logic` (lines 82 and 86),
distinguished by their messages. -/
inductive SplitError where
  | runtimeObjNotFound
  | mainLogicNotFound
  deriving DecidableEq, Repr

/-- `_split_main_logic` (lines 76-106).  The Python prolog is
`yul_code[:code_idx.end() + runtime_idx.end()]`, i.e. everything before the
suffix that remains after the `code\s*\x7b` match; the suffix formulation
used here is index-free but identical. -/
def splitMainLogic (yc : Text) : Except SplitError (Text × Text × Text) :=
  match searchRem matchRuntimeAt yc with
  | none => .error .runtimeObjNotFound
  | some r1 =>
    match searchRem matchCodeAt r1 with
    | none => .error .mainLogicNotFound
    | some afterProlog =>
      let prolog := yc.take (yc.length - afterProlog.length)
      let p := splitDepth 1 afterProlog
      .ok (prolog, p.1, p.2)

/-- Whether both markers required by `_split_main_logic` are present. -/
def markersPresent (yc : Text) : Bool :=
  match searchRem matchRuntimeAt yc with
  | none => false
  | some r1 => (searchRem matchCodeAt r1).isSome

/-- One slot of an opaque-predicate template: a literal fragment, or one of
the two parameter slots `v1` / `v2` filled by `str.format`. -/
inductive Piece where
  | lit : Text → Piece
  | v1 : Piece
  | v2 : Piece

/-- A predicate template is the list of its fragments and parameter slots. -/
abbrev Template := List Piece

/-- `template.format(v1=a, v2=b)`: substitute the two names into the slots. -/
def renderTemplate (tpl : Template) (a b : Text) : Text :=
  (tpl.map fun p => match p with | .lit t => t | .v1 => a | .v2 => b).flatten

/-- `TRUE_PREDICATES_TEMPLATES` (lines 44-52), transcribed fragment by
fragment; the third entry keeps the source's extra closing parenthesis. -/
def truePredTemplates : List Template :=
  [ [.lit ("(iszero(lt(mul(".toList), .v1, .lit (", ".toList), .v1,
     .lit ("), ".toList), .v1, .lit (")))".toList)],
    [.lit ("(eq(mod(mul(".toList), .v1, .lit (", add(".toList), .v2,
     .lit (", 1)), ".toList), .v1, .lit ("), mod(add(".toList), .v2,
     .lit (", 1), ".toList), .v1, .lit (")))".toList)],
    [.lit ("(iszero(sub(1, eq(and(".toList), .v1, .lit (", ".toList), .v2,
     .lit ("), and(".toList), .v2, .lit (", ".toList), .v1,
     .lit ("))))))".toList)],
    [.lit ("(eq(sub(add(".toList), .v1, .lit (", ".toList), .v2,
     .lit ("), ".toList), .v2, .lit ("), ".toList), .v1, .lit ("))".toList)],
    [.lit ("(eq(or(and(".toList), .v1, .lit (", ".toList), .v2,
     .lit ("), or(".toList), .v1, .lit (", ".toList), .v2,
     .lit (")), or(".toList), .v1, .lit (", ".toList), .v2,
     .lit (")))".toList)],
    [.lit ("(iszero(lt(div(mul(".toList), .v1, .lit (", ".toList), .v2,
     .lit ("), ".toList), .v2, .lit ("), ".toList), .v1,
     .lit (")))".toList)],
    [.lit ("(eq(shl(0, ".toList), .v1, .lit ("), ".toList), .v1,
     .lit ("))".toList)] ]

/-- `FALSE_PREDICATES_TEMPLATES` (lines 55-64). -/
def falsePredTemplates : List Template :=
  [ [.lit ("(lt(add(".toList), .v1, .lit (", ".toList), .v2,
     .lit ("), 0))".toList)],
    [.lit ("(lt(mul(".toList), .v1, .lit (", ".toList), .v2,
     .lit ("), 0))".toList)],
    [.lit ("(eq(add(".toList), .v1, .lit (", ".toList), .v2,
     .lit ("), 0))".toList)],
    [.lit ("(gt(xor(".toList), .v1, .lit (", ".toList), .v1,
     .lit ("), 0))".toList)],
    [.lit ("(iszero(".toList), .v1, .lit ("))".toList)],
    [.lit ("(gt(sub(".toList), .v1, .lit (", ".toList), .v1,
     .lit ("), 0))".toList)],
    [.lit ("(lt(mod(".toList), .v2, .lit (", ".toList), .v1,
     .lit ("), 0))".toList)],
    [.lit ("(eq(and(".toList), .v1, .lit (", ".toList), .v2,
     .lit ("), xor(".toList), .v1, .lit (", ".toList), .v2,
     .lit (")))".toList)] ]

/-- `CONDUSING_VAR_NAMES` (lines 20-41). -/
def condusingVarNames : List Text :=
  [ "isMemoryAligned".toList, "validateChecksum".toList, "bufferLimit".toList,
    "updatePointer".toList, "nextInstruction".toList, "tempAccumulator".toList,
    "hashedIndex".toList, "loopExitFlag".toList, "writePermission".toList,
    "checkOverflow".toList, "safeZonePtr".toList, "initCycle".toList,
    "finalResult".toList, "currentOffset".toList, "maskRegister".toList,
    "clearBitFlag".toList, "decodeSegment".toList, "syncBarrier".toList,
    "readLatch".toList, "memoryProbe".toList ]

/-- One candidate name `f"{random.choice(CONDUSING_VAR_NAMES)}_{random.randint(0, 10)}"`
(line 128/130): `w` is the `random.choice` draw (mod 20) and `j` the
`random.randint(0, 10)` draw (mod 11). -/
def mkVarName (w j : Nat) : Text :=
  condusingVarNames.getD (w % 20) [] ++ ('_' :: natText (j % 11))

/-- `_generate_dummy_var_name` (lines 127-132): draw candidates until one is
not in the current-depth namespace, then append it; `none` when the supplied
draw list is exhausted without escaping the collision loop. -/
def genDummyVarName : List (Nat × Nat) → List Text → Option (Text × List Text)
  | [], _ => none
  | (w, j) :: rest, vars =>
    let nm := mkVarName w j
    if nm ∈ vars then genDummyVarName rest vars
    else some (nm, vars ++ [nm])

/-- The operations of `math_ops = ["add", "mul", "div"]` (line 140). -/
inductive MathOp where
  | add
  | mul
  | div
  deriving DecidableEq, Repr

/-- The `math_ops` list, in source order. -/
def mathOps : List MathOp := [.add, .mul, .div]

/-- Rendering of a math op name. -/
def mathOpText : MathOp → Text
  | .add => "add".toList
  | .mul => "mul".toList
  | .div => "div".toList

/-- Right-hand side of a generated dummy statement: a positive-range literal
(line 143/150) or `op(existing_var, literal)` (line 148). -/
inductive DummyExpr where
  | lit : Nat → DummyExpr
  | bin : MathOp → Text → Nat → DummyExpr
  deriving DecidableEq, Repr

/-- A generated dummy statement `let name := expr`. -/
abbrev DummyStmt := Text × DummyExpr

/-- Per-line random draws of `_generate_dummy_code`: the fresh-name candidate
draws, the `random.random() < 0.5` coin, the two `random.choice` indices for
`var_name_1` / `var_name_2`, the `random.choice(math_ops)` index, and the
`random.randint(0,100)` literal. -/
structure LineO where
  nameDraws : List (Nat × Nat)
  coin : Bool
  vi1 : Nat
  vi2 : Nat
  opIdx : Nat
  litDraw : Nat

/-- `_generate_dummy_code` (lines 134-151) as statement generation: one
`LineO` per iteration of `for i in range(num_of_lines)` (the caller draws
`num_of_lines` and supplies that many entries).  When fewer than three
decoys exist the line binds a fresh name to a literal; otherwise the coin
decides between `op(var_name_2, literal)` and a literal.  `var_name_1` is
drawn but never used, exactly as in the source. -/
def genDummyCodeStmts : List LineO → List Text → Option (List DummyStmt × List Text)
  | [], vars => some ([], vars)
  | lo :: rest, vars =>
    if vars.length < 3 then
      match genDummyVarName lo.nameDraws vars with
      | none => none
      | some (nm, vars') =>
        match genDummyCodeStmts rest vars' with
        | none => none
        | some (sts, vars'') => some ((nm, DummyExpr.lit (lo.litDraw % 101)) :: sts, vars'')
    else if lo.coin then
      let v2 := vars.getD (lo.vi2 % vars.length) []
      match genDummyVarName lo.nameDraws vars with
      | none => none
      | some (nm, vars') =>
        match genDummyCodeStmts rest vars' with
        | none => none
        | some (sts, vars'') =>
          some ((nm, DummyExpr.bin (mathOps.getD (lo.opIdx % 3) MathOp.add) v2 (lo.litDraw % 101)) :: sts, vars'')
    else
      match genDummyVarName lo.nameDraws vars with
      | none => none
      | some (sts1, vars') =>
        match genDummyCodeStmts rest vars' with
        | none => none
        | some (sts, vars'') => some ((sts1, DummyExpr.lit (lo.litDraw % 101)) :: sts, vars'')

/-- Rendering of a dummy right-hand side, as the f-strings on lines 143-150. -/
def renderExpr : DummyExpr → Text
  | .lit n => natText n
  | .bin op v n => mathOpText op ++ ('(' :: v) ++ (", ".toList) ++ natText n ++ [')']

/-- Rendering of one dummy line `let name := expr\n`. -/
def renderStmt (s : DummyStmt) : Text :=
  ("let ".toList) ++ s.1 ++ (" := ".toList) ++ renderExpr s.2 ++ ['\n']

/-- `_generate_dummy_code` as text, the form consumed by the callers. -/
def genDummyCodeT (los : List LineO) (vars : List Text) : Option (Text × List Text) :=
  (genDummyCodeStmts los vars).map fun p => ((p.1.map renderStmt).flatten, p.2)

/-- `_generate_opaque_predicate` (lines 108-125): with fewer than two decoys
return the literal fallback, otherwise draw two names (with replacement) and
one template from the catalog selected by `eval_to` and substitute.  `i1`,
`i2`, `ti` are the three `random.choice` draws, reduced modulo the list
sizes. -/
def genOpaquePredicate (evalTo : Bool) (i1 i2 ti : Nat) (vars : List Text) : Text :=
  if vars.length < 2 then
    if evalTo then ("eq(0, 0)".toList) else ("eq(1, 0)".toList)
  else
    let a := vars.getD (i1 % vars.length) []
    let b := vars.getD (i2 % vars.length) []
    if evalTo then
      renderTemplate (truePredTemplates.getD (ti % truePredTemplates.length) []) a b
    else
      renderTemplate (falsePredTemplates.getD (ti % falsePredTemplates.length) []) a b

/-- The EVM word bound: Yul arithmetic is on 256-bit words. -/
def wordSize : Nat := 2 ^ 256

/-- Yul `add`: addition modulo the word size. -/
def yulAdd (a b : Nat) : Nat := (a + b) % wordSize

/-- Yul `mul`: multiplication modulo the word size. -/
def yulMul (a b : Nat) : Nat := (a * b) % wordSize

/-- Yul `div`: Euclidean quotient, with `div(a, 0) = 0`. -/
def yulDiv (a b : Nat) : Nat := if b = 0 then 0 else a / b

/-- Yul `mod`: remainder, with `mod(a, 0) = 0`. -/
def yulMod (a b : Nat) : Nat := if b = 0 then 0 else a % b

/-- Yul `eq`: 1 when equal, else 0. -/
def yulEq (a b : Nat) : Nat := if a = b then 1 else 0

/-- Semantics of `TRUE_PREDICATES_TEMPLATES[1]` (line 46), namely
`(eq(mod(mul(v1, add(v2, 1)), v1), mod(add(v2, 1), v1)))`, read back
operator by operator over word arithmetic. -/
def truePredSem1 (a b : Nat) : Nat :=
  yulEq (yulMod (yulMul a (yulAdd b 1)) a) (yulMod (yulAdd b 1) a)

/-- Environment of decoy values accumulated by executing dummy statements. -/
def envGet (env : List (Text × Nat)) (nm : Text) : Option Nat :=
  match env with
  | [] => none
  | (k, v) :: rest => if k = nm then some v else envGet rest nm

/-- Evaluation of one of the `math_ops` over Yul word arithmetic. -/
def evalMathOp : MathOp → Nat → Nat → Nat
  | .add, a, b => yulAdd a b
  | .mul, a, b => yulMul a b
  | .div, a, b => yulDiv a b

/-- Value of a dummy right-hand side in an environment. -/
def evalDummyExpr (env : List (Text × Nat)) : DummyExpr → Nat
  | .lit n => n
  | .bin op v n => evalMathOp op ((envGet env v).getD 0) n

/-- Execution of a generated dummy-statement sequence: each `let` binds the
fresh name to the value of its right-hand side. -/
def execStmts : List DummyStmt → List (Text × Nat) → List (Text × Nat)
  | [], env => env
  | (nm, e) :: rest, env => execStmts rest (env ++ [(nm, evalDummyExpr env e)])

/-- Rendering of `_insert_to_dummy_if_else` (lines 179-182):
`if PRED \x7b\n A \n\x7d else \x7b\n B \n\x7d`, with the payload in the arm
selected by the predicate's target truth value. -/
def renderIfElse (evalTo : Bool) (pred payload dummy : Text) : Text :=
  let a := if evalTo then payload else dummy
  let b := if evalTo then dummy else payload
  ("if ".toList) ++ pred ++ (" \x7b\n".toList) ++ a ++
    ("\n\x7d else \x7b\n".toList) ++ b ++ ("\n\x7d".toList)

/-- Rendering of `_insert_to_dummy_switch` (lines 194-197):
`switch PRED \x7b case 0:\n A \ndefault:\n B \n\x7d`. -/
def renderSwitch (evalTo : Bool) (pred payload dummy : Text) : Text :=
  let a := if evalTo then payload else dummy
  let b := if evalTo then dummy else payload
  ("switch ".toList) ++ pred ++ (" \x7b case 0:\n".toList) ++ a ++
    ("\ndefault:\n".toList) ++ b ++ ("\n\x7d".toList)

/-- Random draws of one `_generate_dummy_code_for_false_flow` call
(lines 153-166).  `plain` is the no-branch arm: the drawn
`num_of_lines = randint(1, 2) * 2` is the length of the line list.
`branched` is the branch arm: three line lists of the drawn
`third_of_lines` length, the `random.random() < 0.5` choice between if-else
and switch, the inner wrap's `eval_to` and three `random.choice` draws, and
the inner wrap's own (recursive) false-flow draws. -/
inductive FFO where
  | plain : List LineO → FFO
  | branched : List LineO → List LineO → Bool → Bool → Nat → Nat → Nat → FFO →
      List LineO → FFO

/-- Random draws of one `_insert_to_dummy_if_else` / `_insert_to_dummy_switch`
call (lines 168-197): `eval_to`, the predicate's three `random.choice`
draws, and the sibling-branch false-flow draws. -/
structure GuardO where
  evalTo : Bool
  i1 : Nat
  i2 : Nat
  ti : Nat
  ff : FFO

/-- `_generate_dummy_code_for_false_flow` (lines 153-166).  In the branched
arm the inner `_insert_to_dummy_*` call is inlined in source evaluation
order: the payload dummy lines are generated first (Python evaluates the
argument `self._generate_dummy_code(...)` before the call), then the inner
predicate over the current registry, then the inner sibling false flow. -/
def genFalseFlow : FFO → List Text → Option (Text × List Text)
  | .plain lines, vars => genDummyCodeT lines vars
  | .branched pre mid kind evalTo i1 i2 ti inner post, vars =>
    match genDummyCodeT pre vars with
    | none => none
    | some (d1, v1) =>
      match genDummyCodeT mid v1 with
      | none => none
      | some (dm, v2) =>
        let pred := genOpaquePredicate evalTo i1 i2 ti v2
        match genFalseFlow inner v2 with
        | none => none
        | some (db, v3) =>
          let blob := if kind then renderIfElse evalTo pred dm db
                      else renderSwitch evalTo pred dm db
          match genDummyCodeT post v3 with
          | none => none
          | some (d3, v4) => some (d1 ++ blob ++ d3, v4)

/-- `_insert_to_dummy_if_else` (lines 168-182): the predicate is generated
from the current registry (line 177) before the sibling dummy code extends
it (line 178). -/
def insertIfElse (payload : Text) (g : GuardO) (vars : List Text) :
    Option (Text × List Text) :=
  let pred := genOpaquePredicate g.evalTo g.i1 g.i2 g.ti vars
  match genFalseFlow g.ff vars with
  | none => none
  | some (d, v') => some (renderIfElse g.evalTo pred payload d, v')

/-- `_insert_to_dummy_switch` (lines 184-197). -/
def insertSwitch (payload : Text) (g : GuardO) (vars : List Text) :
    Option (Text × List Text) :=
  let pred := genOpaquePredicate g.evalTo g.i1 g.i2 g.ti vars
  match genFalseFlow g.ff vars with
  | none => none
  | some (d, v') => some (renderSwitch g.evalTo pred payload d, v')

/-- The wrap loop of `control_flow_obfuscation` (lines 202-208): `branch`
is initialised to `0 < BRANCHING_COEFFICIENT = 0.3`, so the Python `while`
body always runs before the first draw; each iteration consumes one
`random.random() < 0.5` structure choice (`kind`, `true` = if-else) plus
the guard draws, and then one `random.random() < 0.3` continue draw. -/
def cfoLoop : Text → List Text → List (Bool × GuardO) → List Bool →
    Option (Text × List Text)
  | _, _, [], _ => none
  | ml, vars, (kind, g) :: its, draws =>
    match (if kind then insertIfElse ml g vars else insertSwitch ml g vars) with
    | none => none
    | some (ml', vars') =>
      match draws with
      | [] => none
      | d :: ds => if d then cfoLoop ml' vars' its ds else some (ml', vars')

/-- Python's `text.split("\n")`. -/
def splitNl : Text → List Text
  | [] => [[]]
  | c :: cs =>
    if c = '\n' then [] :: splitNl cs
    else
      match splitNl cs with
      | [] => [[c]]
      | h :: t => (c :: h) :: t

/-- Python's `line.strip()` on this ASCII input class. -/
def pyStrip (l : Text) : Text :=
  (((l.dropWhile isPyWs).reverse).dropWhile isPyWs).reverse

/-- `line.count("\x7b") - line.count("\x7d")` (line 218). -/
def lineDepthDelta (l : Text) : Int :=
  (l.count lbrace : Int) - (l.count rbrace : Int)

/-- The per-line dummy-injection pass of `control_flow_obfuscation`
(lines 213-224): update the depth from the line's brace counts; while the
depth is positive, prepend a freshly generated dummy run (one oracle entry,
of the drawn `randint(1, DUMMY_LINE_GENERATOR_STRENGTH)` length) and strip
the line; every line is re-emitted with a trailing newline. -/
def injectLines : Int → List Text → List (List LineO) → List Text →
    Option (Text × List Text)
  | _, [], _, vars => some ([], vars)
  | d, l :: ls, o, vars =>
    let d' := d + lineDepthDelta l
    if d' > 0 then
      match o with
      | [] => none
      | lo :: o' =>
        match genDummyCodeT lo vars with
        | none => none
        | some (dc, vars') =>
          match injectLines d' ls o' vars' with
          | none => none
          | some (rest, vars'') => some (dc ++ pyStrip l ++ ('\n' :: rest), vars'')
    else
      match injectLines d' ls o vars with
      | none => none
      | some (rest, vars') => some (l ++ ('\n' :: rest), vars')

/-- Instance state of `SmartObfuscator` (lines 70-74).  `current_depth` is
set to 1 in `__init__` and never changed, and `init_dummy_vars` is created
as `{1: []}`, so the depth-1 name list is the whole registry and is
modelled directly. -/
structure SmartObfuscator where
  yulCode : Text
  obfuscatedYulCode : Option Text
  initDummyVars : List Text
  deriving DecidableEq

/-- `SmartObfuscator.__init__`: empty cache, empty decoy registry. -/
def SmartObfuscator.init (yc : Text) : SmartObfuscator :=
  ⟨yc, none, []⟩

/-- All random draws of one `control_flow_obfuscation` run. -/
structure CfoO where
  iters : List (Bool × GuardO)
  contDraws : List Bool
  injectO : List (List LineO)

/-- `control_flow_obfuscation` (lines 199-227): split, wrap the main logic
at least once, inject dummy runs line by line, reassemble
`prolog ++ obfuscated_main_logic ++ epilog`, and store the result in
`self.obfuscated_yul_code` (line 226).  `none` covers the propagated
`ValueError` of the splitter and oracle exhaustion. -/
def controlFlowObfuscation (s : SmartObfuscator) (o : CfoO) :
    Option (Text × SmartObfuscator) :=
  match splitMainLogic s.yulCode with
  | .error _ => none
  | .ok (p, m, e) =>
    match cfoLoop m s.initDummyVars o.iters o.contDraws with
    | none => none
    | some (ml', vars') =>
      match injectLines 1 (splitNl ml') o.injectO vars' with
      | none => none
      | some (oml, vars'') =>
        let t := p ++ oml ++ e
        some (t, { s with obfuscatedYulCode := some t, initDummyVars := vars'' })

/-- `obfuscate` (lines 230-237): run the single-pass pipeline and store the
result. -/
def obfuscate (s : SmartObfuscator) (o : CfoO) : Option (Text × SmartObfuscator) :=
  match controlFlowObfuscation s o with
  | none => none
  | some (t, s') => some (t, { s' with obfuscatedYulCode := some t })

/-- `get_obfuscated_yul` (lines 240-243): compute and cache on first use,
return the cached text afterwards. -/
def getObfuscatedYul (s : SmartObfuscator) (o : CfoO) :
    Option (Text × SmartObfuscator) :=
  match s.obfuscatedYulCode with
  | some c => some (c, s)
  | none => obfuscate s o

/-- Head-match test: does `pat` occur at the start of the text? -/
def isHeadSeq : Text → Text → Bool
  | [], _ => true
  | _ :: _, [] => false
  | p :: ps, c :: cs => p = c && isHeadSeq ps cs

/-- Named form of the start test used in theorem statements. -/
def startsWithSeq (pat l : Text) : Bool := isHeadSeq pat l

/-- Does `pat` occur at the end of the text? -/
def endsWithSeq (pat l : Text) : Bool := isHeadSeq pat.reverse l.reverse

/-- Does `pat` occur anywhere in the text? -/
def hasSub (pat : Text) : Text → Bool
  | [] => isHeadSeq pat []
  | c :: cs => isHeadSeq pat (c :: cs) || hasSub pat cs

/-- Index of the first occurrence of `pat` in the text, if any. -/
def firstIdx (pat : Text) : Text → Option Nat
  | [] => if isHeadSeq pat [] then some 0 else none
  | c :: cs =>
    if isHeadSeq pat (c :: cs) then some 0
    else (firstIdx pat cs).map (· + 1)

/-- The text contains no newline character. -/
def nlFreeB (l : Text) : Bool := l.all fun c => c ≠ '\n'

/-- `nlFreeB` lifted to template pieces (parameter slots impose nothing). -/
def pieceNlFreeB : Piece → Bool
  | .lit t => nlFreeB t
  | .v1 => true
  | .v2 => true

/-- Once the walked depth of `_split_main_logic` has become non-positive it
stays non-positive for the rest of the text: no block is re-opened after
the matching close of the target block. -/
def noReentryB : Int → Text → Bool
  | _, [] => true
  | d, c :: cs =>
    (!(decide (d ≤ 0)) || decide (depthUpd d c ≤ 0)) && noReentryB (depthUpd d c) cs

/-- All 220 names `_generate_dummy_var_name` can ever draw: the 20
vocabulary words times the 11 numerals of `random.randint(0, 10)`. -/
def fullPool : List Text :=
  ((List.range 20).map fun w => (List.range 11).map fun j => mkVarName w j).flatten

/-- How one generation step may change the decoy registry: it extends the
list at the end, preserves freedom from duplicates, and preserves
newline-freedom of every stored name. -/
def varsEvolve (v v' : List Text) : Prop :=
  v <+: v' ∧ (v.Nodup → v'.Nodup) ∧
    ((∀ x ∈ v, nlFreeB x = true) → ∀ x ∈ v', nlFreeB x = true)

/-- The wrapped main logic starts with a guard: an `if` or `switch` token,
a newline-free predicate, and the block opener of the respective render. -/
def guardHeadShape (ml : Text) : Prop :=
  (∃ pr rest, nlFreeB pr = true ∧
    ml = ("if ".toList) ++ pr ++ ((" \x7b".toList) ++ '\n' :: rest))
  ∨ (∃ pr rest, nlFreeB pr = true ∧
    ml = ("switch ".toList) ++ pr ++ ((" \x7b case 0:".toList) ++ '\n' :: rest))

/-- Concrete well-formed input used by the witnesses. -/
def yc0 : Text := ("object \"runtime\" \x7b code \x7b s() \x7d \x7d").toList

/-- Prolog of `yc0` as computed by `_split_main_logic`. -/
def p0 : Text := ("object \"runtime\" \x7b code \x7b").toList

/-- Main logic of `yc0`. -/
def m0 : Text := (" s() ").toList

/-- Epilog of `yc0`. -/
def e0 : Text := ("\x7d \x7d").toList

/-- A concrete full-run oracle for `yc0`: one if-else wrap (the continue
draw stops the loop), one plain dummy line in the sibling branch, and one
literal dummy line for each of the six lines of the wrapped main logic. -/
def o0 : CfoO :=
  { iters := [(true, ⟨true, 0, 0, 0, FFO.plain [⟨[(0, 0)], false, 0, 0, 0, 5⟩]⟩)],
    contDraws := [false],
    injectO := [ [⟨[(1, 0)], false, 0, 0, 0, 1⟩], [⟨[(2, 0)], false, 0, 0, 0, 2⟩],
                 [⟨[(3, 0)], false, 0, 0, 0, 3⟩], [⟨[(4, 0)], false, 0, 0, 0, 4⟩],
                 [⟨[(5, 0)], false, 0, 0, 0, 5⟩], [⟨[(6, 0)], false, 0, 0, 0, 6⟩] ] }

/-- Fresh instance on the concrete input. -/
def s0 : SmartObfuscator := SmartObfuscator.init yc0

/-- The concrete obfuscation run used by the witnesses. -/
def run0 : Option (Text × SmartObfuscator) := controlFlowObfuscation s0 o0

/-- Output text of the concrete run. -/
def t0 : Text := (run0.getD ([], s0)).1

/-- Post-run instance state of the concrete run. -/
def s0fin : SmartObfuscator := (run0.getD ([], s0)).2

/-- Input whose epilog re-opens a block after the matching close: the text
after the runtime `code` block is `\x7d X \x7b \x7d`. -/
def yc3 : Text := ("object \"runtime\" \x7b code \x7b \x7d X \x7b \x7d").toList

/-- Oracle with two chained if-else wraps: the second wrap's predicate is
drawn over the decoys defined inside the first wrap's sibling branch. -/
def o4 : CfoO :=
  { iters := [ (true, ⟨true, 0, 0, 0,
                 FFO.plain [⟨[(0, 0)], false, 0, 0, 0, 7⟩, ⟨[(1, 0)], false, 0, 0, 0, 9⟩]⟩),
               (true, ⟨true, 0, 0, 0, FFO.plain [⟨[(2, 0)], false, 0, 0, 0, 3⟩]⟩) ],
    contDraws := [true, false],
    injectO := (List.range 12).map fun k => [⟨[(3 + k, 0)], false, 0, 0, 0, k⟩] }

/-- Output text of the two-wrap run on `yc0`. -/
def t4 : Text := ((controlFlowObfuscation s0 o4).getD ([], s0)).1

theorem matchSeq_append {pat : Text} :
    ∀ {l r : Text}, matchSeq pat l = some r → l = pat ++ r := by
  induction pat with
  | nil => intro l r h; simp [matchSeq] at h; simpa using h
  | cons p ps ih =>
    intro l r h
    cases l with
    | nil => simp [matchSeq] at h
    | cons c cs =>
      simp only [matchSeq] at h
      split at h
      · next heq => subst heq; simpa using ih h
      · exact absurd h (by simp)

theorem dropWhile_suffix (p : Char → Bool) (l : Text) :
    ∃ a, l = a ++ l.dropWhile p :=
  ⟨l.takeWhile p, (List.takeWhile_append_dropWhile p l).symm⟩

theorem matchRuntimeAt_suffix {l r : Text} (h : matchRuntimeAt l = some r) :
    ∃ a, l = a ++ r := by
  unfold matchRuntimeAt at h
  cases h1 : matchSeq ("object".toList) l with
  | none => rw [h1] at h; exact absurd h (by simp)
  | some r1 =>
    rw [h1, Option.some_bind] at h
    cases h2 : matchSeq ("\"runtime\"".toList) (r1.dropWhile isPyWs) with
    | none => rw [h2] at h; exact absurd h (by simp)
    | some r2 =>
      rw [h2, Option.some_bind] at h
      have e1 := matchSeq_append h1
      obtain ⟨a1, e2⟩ := dropWhile_suffix isPyWs r1
      have e3 := matchSeq_append h2
      obtain ⟨a2, e4⟩ := dropWhile_suffix isPyWs r2
      have e5 := matchSeq_append h
      exact ⟨"object".toList ++ a1 ++ "\"runtime\"".toList ++ a2 ++ [lbrace], by
        rw [e1, e2, e3, e4, e5]; simp [List.append_assoc]⟩

theorem matchCodeAt_suffix {l r : Text} (h : matchCodeAt l = some r) :
    ∃ a, l = a ++ r := by
  unfold matchCodeAt at h
  cases h1 : matchSeq ("code".toList) l with
  | none => rw [h1] at h; exact absurd h (by simp)
  | some r1 =>
    rw [h1, Option.some_bind] at h
    have e1 := matchSeq_append h1
    obtain ⟨a1, e2⟩ := dropWhile_suffix isPyWs r1
    have e3 := matchSeq_append h
    exact ⟨"code".toList ++ a1 ++ [lbrace], by
      rw [e1, e2, e3]; simp [List.append_assoc]⟩

theorem searchRem_suffix {m : Text → Option Text}
    (hm : ∀ {l r : Text}, m l = some r → ∃ a, l = a ++ r) :
    ∀ {l r : Text}, searchRem m l = some r → ∃ a, l = a ++ r := by
  intro l
  induction l with
  | nil =>
    intro r h
    simp only [searchRem] at h
    exact hm h
  | cons c cs ih =>
    intro r h
    simp only [searchRem] at h
    cases hl : m (c :: cs) with
    | none =>
      rw [hl] at h; simp at h
      obtain ⟨a, ha⟩ := ih h
      exact ⟨c :: a, by rw [ha]; rfl⟩
    | some r0 => rw [hl] at h; simp at h; subst h; exact hm hl

theorem mkVarName_mem_fullPool (w j : Nat) : mkVarName w j ∈ fullPool := by
  have hw : w % 20 < 20 := Nat.mod_lt _ (by norm_num)
  have hj : j % 11 < 11 := Nat.mod_lt _ (by norm_num)
  have he : mkVarName w j = mkVarName (w % 20) (j % 11) := by
    simp [mkVarName, Nat.mod_mod_of_dvd _ (dvd_refl 20), Nat.mod_mod_of_dvd _ (dvd_refl 11)]
  rw [he]
  unfold fullPool
  refine List.mem_flatten.mpr
    ⟨(List.range 11).map (fun j' => mkVarName (w % 20) j'), ?_, ?_⟩
  · exact List.mem_map.mpr ⟨w % 20, List.mem_range.mpr hw, rfl⟩
  · exact List.mem_map.mpr ⟨j % 11, List.mem_range.mpr hj, rfl⟩

/-- C8: when the current-depth namespace already holds all 220 drawable
names, no draw sequence of any length lets `_generate_dummy_var_name`
return: every candidate collides, so the Python `while` loop redraws
forever.  The code has no `DecoyNamePoolExhausted` condition and no retry
bound, contrary to the claim. -/
theorem c8_name_pool_exhausted_never_returns :
    ∀ draws, genDummyVarName draws fullPool = none := by
  intro draws
  induction draws with
  | nil => rfl
  | cons d rest ih =>
    obtain ⟨w, j⟩ := d
    simp only [genDummyVarName]
    rw [if_pos (mkVarName_mem_fullPool w j)]
    exact ih

/-- C1: the TRUE-catalog template at index 1,
`(eq(mod(mul(v1, add(v2, 1)), v1), mod(add(v2, 1), v1)))`, is emitted as a
predicate by `_generate_opaque_predicate(True)` once two decoys exist, yet
over Yul word arithmetic it evaluates to false (0) at the positive,
in-range decoy values `v1 = 3`, `v2 = 1`: `mod(mul(3, 2), 3) = 0` but
`mod(2, 3) = 2`.  So not every predicate generated with `eval_to = true`
evaluates to true on positive in-range values. -/
theorem c1_true_template_index1_evaluates_false :
    genOpaquePredicate true 0 1 1
        [("isMemoryAligned_0".toList), ("validateChecksum_0".toList)] =
      renderTemplate (truePredTemplates.getD 1 []) ("isMemoryAligned_0".toList)
        ("validateChecksum_0".toList)
    ∧ (0 < 3 ∧ 0 < 1 ∧ 3 < wordSize ∧ 1 < wordSize)
    ∧ truePredSem1 3 1 = 0 := by
  have hlt : ∀ n : Nat, n < 4 → n < wordSize := by
    intro n hn
    have h1 : (4 : Nat) = 2 ^ 2 := by norm_num
    have h2 : (2 : Nat) ^ 2 ≤ 2 ^ 256 := Nat.pow_le_pow_right (by norm_num) (by norm_num)
    unfold wordSize
    omega
  exact ⟨rfl, ⟨by norm_num, by norm_num, hlt 3 (by norm_num), hlt 1 (by norm_num)⟩,
    by decide⟩

/-- C2: `_generate_dummy_code(1)` on a fresh registry with the
`random.randint(0, 100)` draw equal to 0 emits `let isMemoryAligned_0 := 0`,
binding a decoy to the non-positive value 0 — the positivity invariant the
opaque predicates rely on does not hold for every draw. -/
theorem c2_decoy_bound_to_zero_literal :
    genDummyCodeStmts [⟨[(0, 0)], false, 0, 0, 0, 0⟩] [] =
      some ([(("isMemoryAligned_0".toList), DummyExpr.lit 0)],
            [("isMemoryAligned_0".toList)])
    ∧ execStmts [(("isMemoryAligned_0".toList), DummyExpr.lit 0)] [] =
        [(("isMemoryAligned_0".toList), 0)]
    ∧ renderStmt (("isMemoryAligned_0".toList), DummyExpr.lit 0) =
        ("let isMemoryAligned_0 := 0\n").toList
    ∧ ¬ (0 : Nat) > 0 := by
  exact ⟨by decide, by decide, by decide, by decide⟩

/-- C3 counterexample: on an input whose text after the runtime code block
is `\x7d X \x7b \x7d`, the character walk of `_split_main_logic` sends the
re-opened block back into `main_logic` although the earlier close already
went to `epilog`, so concatenating the returned triple does not reproduce
the input. -/
theorem c3_concat_counterexample :
    splitMainLogic yc3 = Except.ok ((("object \"runtime\" \x7b code \x7b").toList),
        ((" \x7b ").toList), (("\x7d X \x7d").toList))
    ∧ (("object \"runtime\" \x7b code \x7b").toList) ++ ((" \x7b ").toList) ++
        (("\x7d X \x7d").toList) ≠ yc3 := by
  exact ⟨by rfl, by decide⟩

/-- C4: in the two-wrap run `t4` of `control_flow_obfuscation`, the decoy
`isMemoryAligned_0` is first referenced (inside the outer wrap's opaque
predicate) at index 68, while its defining statement
`let isMemoryAligned_0 := ...` only starts at index 258 — the decoy is
referenced textually before its own definition. -/
theorem c4_decoy_referenced_before_definition :
    firstIdx ("isMemoryAligned_0".toList) t4 = some 68
    ∧ firstIdx ("let isMemoryAligned_0".toList) t4 = some 258
    ∧ (68 : Nat) < 258 := by
  exact ⟨by decide, by decide, by norm_num⟩

theorem splitDepth_stay_nonpos :
    ∀ {cs : Text} {d : Int}, d ≤ 0 → noReentryB d cs = true →
      splitDepth d cs = ([], cs) := by
  intro cs
  induction cs with
  | nil => intro d _ _; rfl
  | cons c cs ih =>
    intro d hd hnr
    simp only [noReentryB, Bool.and_eq_true, Bool.or_eq_true, Bool.not_eq_true',
      decide_eq_true_eq, decide_eq_false_iff_not] at hnr
    have hd' : depthUpd d c ≤ 0 := by
      rcases hnr.1 with h | h
      · exact absurd hd h
      · exact h
    simp only [splitDepth, if_pos hd', ih hd' hnr.2]

theorem splitDepth_concat :
    ∀ {cs : Text} {d : Int}, noReentryB d cs = true →
      (splitDepth d cs).1 ++ (splitDepth d cs).2 = cs := by
  intro cs
  induction cs with
  | nil => intro d _; rfl
  | cons c cs ih =>
    intro d hnr
    simp only [noReentryB, Bool.and_eq_true] at hnr
    by_cases h : depthUpd d c ≤ 0
    · simp only [splitDepth, if_pos h, splitDepth_stay_nonpos h hnr.2,
        List.nil_append]
    · simp only [splitDepth, if_neg h, List.cons_append]
      exact congrArg (c :: ·) (ih hnr.2)

theorem splitMainLogic_decomp {yc p m e : Text}
    (h : splitMainLogic yc = .ok (p, m, e)) :
    ∃ rest, yc = p ++ rest ∧ yc.drop p.length = rest ∧ splitDepth 1 rest = (m, e) := by
  unfold splitMainLogic at h
  cases h1 : searchRem matchRuntimeAt yc with
  | none => simp only [h1] at h; exact absurd h (by simp)
  | some r1 =>
    simp only [h1] at h
    cases h2 : searchRem matchCodeAt r1 with
    | none => simp only [h2] at h; exact absurd h (by simp)
    | some rest =>
      simp only [h2, Except.ok.injEq, Prod.mk.injEq] at h
      obtain ⟨hp, hm, he⟩ := h
      obtain ⟨a1, ha1⟩ := searchRem_suffix (fun {l r} hh => matchRuntimeAt_suffix hh) h1
      obtain ⟨a2, ha2⟩ := searchRem_suffix (fun {l r} hh => matchCodeAt_suffix hh) h2
      have hyc : yc = (a1 ++ a2) ++ rest := by rw [ha1, ha2, List.append_assoc]
      have hlen : yc.length - rest.length = (a1 ++ a2).length := by
        rw [hyc, List.length_append]
        omega
      have hpro : yc.take (yc.length - rest.length) = a1 ++ a2 := by
        rw [hlen, hyc, List.take_left]
      have hp' : p = a1 ++ a2 := by rw [← hp, hpro]
      refine ⟨rest, ?_, ?_, ?_⟩
      · rw [hyc, hp']
      · rw [hyc, hp', List.drop_left]
      · rw [← hm, ← he]

/-- C3 (amended): concatenating the triple returned by `_split_main_logic`
reproduces the input exactly, provided that in the text after the prolog
the walked brace depth, once non-positive, never becomes positive again
(no block is re-opened after the matching close of the target block). -/
theorem c3_concat_of_no_reentry (yc p m e : Text)
    (h : splitMainLogic yc = .ok (p, m, e))
    (hnr : noReentryB 1 (yc.drop p.length) = true) :
    p ++ m ++ e = yc := by
  obtain ⟨rest, hyc, hdrop, hsd⟩ := splitMainLogic_decomp h
  rw [hdrop] at hnr
  have hc := splitDepth_concat hnr
  rw [hsd] at hc
  rw [List.append_assoc, hc, ← hyc]

theorem c3_concat_witness :
    splitMainLogic yc0 = Except.ok (p0, m0, e0)
    ∧ noReentryB 1 (yc0.drop p0.length) = true
    ∧ p0 ++ m0 ++ e0 = yc0 :=
  ⟨by rfl, by decide, c3_concat_of_no_reentry yc0 p0 m0 e0 (by rfl) (by decide)⟩

/-- C5: `_split_main_logic` returns a triple exactly when both markers are
present, and fails immediately with the distinct condition matching the
missing marker: `runtimeObjNotFound` when the `object "runtime"` pattern is
absent, `mainLogicNotFound` when the following `code` block opening is
absent.  No retry exists: the result is a pure function of the two search
outcomes. -/
theorem c5_split_error_iff_markers_absent (yc : Text) :
    ((splitMainLogic yc).toOption).isSome = markersPresent yc
    ∧ (searchRem matchRuntimeAt yc = none →
        splitMainLogic yc = .error .runtimeObjNotFound)
    ∧ (∀ r1, searchRem matchRuntimeAt yc = some r1 →
        searchRem matchCodeAt r1 = none →
        splitMainLogic yc = .error .mainLogicNotFound) := by
  refine ⟨?_, ?_, ?_⟩
  · unfold splitMainLogic markersPresent
    cases h1 : searchRem matchRuntimeAt yc with
    | none => simp only [h1]; rfl
    | some r1 =>
      simp only [h1]
      cases h2 : searchRem matchCodeAt r1 with
      | none => simp only [h2]; rfl
      | some rest => simp only [h2]; rfl
  · intro h
    unfold splitMainLogic
    simp only [h]
  · intro r1 h1 h2
    unfold splitMainLogic
    simp only [h1, h2]

theorem c5_witness :
    ((splitMainLogic ("x".toList)).toOption).isSome = markersPresent ("x".toList)
    ∧ splitMainLogic ("x".toList) = .error .runtimeObjNotFound :=
  ⟨(c5_split_error_iff_markers_absent ("x".toList)).1,
   (c5_split_error_iff_markers_absent ("x".toList)).2.1 (by rfl)⟩

/-- C7: whenever `get_obfuscated_yul` returns a text, that text is stored
in `self.obfuscated_yul_code`, and any later call — with any fresh
randomness — returns the identical cached text and leaves the instance
unchanged: the pipeline runs at most once per instance. -/
theorem c7_result_cached_and_stable (s : SmartObfuscator) (o o' : CfoO)
    (t : Text) (s' : SmartObfuscator)
    (h : getObfuscatedYul s o = some (t, s')) :
    s'.obfuscatedYulCode = some t ∧ getObfuscatedYul s' o' = some (t, s') := by
  unfold getObfuscatedYul at h
  cases hc : s.obfuscatedYulCode with
  | some c =>
    simp only [hc, Option.some.injEq, Prod.mk.injEq] at h
    obtain ⟨ht, hs⟩ := h
    subst ht
    subst hs
    refine ⟨hc, ?_⟩
    unfold getObfuscatedYul
    simp only [hc]
  | none =>
    simp only [hc] at h
    unfold obfuscate at h
    cases hcf : controlFlowObfuscation s o with
    | none => simp only [hcf] at h; exact absurd h (by simp)
    | some pr =>
      obtain ⟨t1, s1⟩ := pr
      simp only [hcf, Option.some.injEq, Prod.mk.injEq] at h
      obtain ⟨ht, hs⟩ := h
      have hobf : s'.obfuscatedYulCode = some t := by
        rw [← hs]
        exact congrArg some ht
      refine ⟨hobf, ?_⟩
      unfold getObfuscatedYul
      simp only [hobf]

theorem c7_witness :
    getObfuscatedYul s0 o0 = some (t0, s0fin)
    ∧ s0fin.obfuscatedYulCode = some t0
    ∧ getObfuscatedYul s0fin o0 = some (t0, s0fin) :=
  ⟨by decide,
   (c7_result_cached_and_stable s0 o0 o0 t0 s0fin (by decide)).1,
   (c7_result_cached_and_stable s0 o0 o0 t0 s0fin (by decide)).2⟩

theorem getD_prop {α : Type} (P : α → Prop) :
    ∀ (l : List α) (i : Nat) (d : α), (∀ x ∈ l, P x) → P d → P (l.getD i d) := by
  intro l
  induction l with
  | nil => intro i d _ hd; simpa [List.getD] using hd
  | cons x xs ih =>
    intro i d hl hd
    cases i with
    | zero => simpa [List.getD] using hl x (by simp)
    | succ k =>
      simpa [List.getD] using ih k d (fun y hy => hl y (by simp [hy])) hd

theorem nlFreeB_append {a b : Text} (ha : nlFreeB a = true) (hb : nlFreeB b = true) :
    nlFreeB (a ++ b) = true := by
  simp only [nlFreeB, List.all_append, Bool.and_eq_true]
  exact ⟨ha, hb⟩

theorem nlFreeB_natText_small : ∀ k, k < 11 → nlFreeB (natText k) = true := by decide

theorem nlFreeB_mkVarName (w j : Nat) : nlFreeB (mkVarName w j) = true := by
  unfold mkVarName
  apply nlFreeB_append
  · exact getD_prop (fun x => nlFreeB x = true) condusingVarNames (w % 20) []
      (by decide) (by decide)
  · have h := nlFreeB_natText_small (j % 11) (Nat.mod_lt _ (by norm_num))
    simp only [nlFreeB, List.all_cons, Bool.and_eq_true]
    exact ⟨by decide, h⟩

theorem genDummyVarName_spec :
    ∀ {ds : List (Nat × Nat)} {vars vars' : List Text} {nm : Text},
      genDummyVarName ds vars = some (nm, vars') →
      vars' = vars ++ [nm] ∧ nm ∉ vars ∧ nlFreeB nm = true := by
  intro ds
  induction ds with
  | nil => intro vars vars' nm h; exact absurd h (by simp [genDummyVarName])
  | cons d rest ih =>
    intro vars vars' nm h
    obtain ⟨w, j⟩ := d
    simp only [genDummyVarName] at h
    by_cases hm : mkVarName w j ∈ vars
    · rw [if_pos hm] at h
      exact ih h
    · rw [if_neg hm] at h
      simp only [Option.some.injEq, Prod.mk.injEq] at h
      obtain ⟨hnm, hv⟩ := h
      subst hnm
      exact ⟨hv.symm, hm, nlFreeB_mkVarName w j⟩

theorem varsEvolve_refl (v : List Text) : varsEvolve v v :=
  ⟨List.prefix_refl v, id, id⟩

theorem varsEvolve_trans {a b c : List Text}
    (h1 : varsEvolve a b) (h2 : varsEvolve b c) : varsEvolve a c :=
  ⟨h1.1.trans h2.1, fun h => h2.2.1 (h1.2.1 h), fun h => h2.2.2 (h1.2.2 h)⟩

theorem varsEvolve_append_fresh {v : List Text} {nm : Text}
    (hnin : nm ∉ v) (hnl : nlFreeB nm = true) : varsEvolve v (v ++ [nm]) := by
  refine ⟨⟨[nm], rfl⟩, ?_, ?_⟩
  · intro hn
    rw [List.nodup_append]
    refine ⟨hn, List.nodup_singleton _, ?_⟩
    intro x hx hx'
    simp only [List.mem_singleton] at hx'
    subst hx'
    exact hnin hx
  · intro hv x hx
    rcases List.mem_append.mp hx with h | h
    · exact hv x h
    · simp only [List.mem_singleton] at h
      subst h
      exact hnl

theorem genDummyVarName_evolve {ds : List (Nat × Nat)} {vars vars' : List Text}
    {nm : Text} (h : genDummyVarName ds vars = some (nm, vars')) :
    varsEvolve vars vars' := by
  obtain ⟨he, hnin, hnl⟩ := genDummyVarName_spec h
  rw [he]
  exact varsEvolve_append_fresh hnin hnl

theorem genDummyCodeStmts_evolve :
    ∀ {los : List LineO} {vars vars' : List Text} {sts : List DummyStmt},
      genDummyCodeStmts los vars = some (sts, vars') → varsEvolve vars vars' := by
  intro los
  induction los with
  | nil =>
    intro vars vars' sts h
    simp only [genDummyCodeStmts, Option.some.injEq, Prod.mk.injEq] at h
    rw [← h.2]
    exact varsEvolve_refl _
  | cons lo rest ih =>
    intro vars vars' sts h
    simp only [genDummyCodeStmts] at h
    split at h
    · cases hg : genDummyVarName lo.nameDraws vars with
      | none => simp [hg] at h
      | some pr =>
        obtain ⟨nm, v1⟩ := pr
        simp only [hg] at h
        cases hr : genDummyCodeStmts rest v1 with
        | none => simp [hr] at h
        | some pr2 =>
          obtain ⟨sts2, v2⟩ := pr2
          simp only [hr, Option.some.injEq, Prod.mk.injEq] at h
          rw [← h.2]
          exact varsEvolve_trans (genDummyVarName_evolve hg) (ih hr)
    · split at h
      · cases hg : genDummyVarName lo.nameDraws vars with
        | none => simp [hg] at h
        | some pr =>
          obtain ⟨nm, v1⟩ := pr
          simp only [hg] at h
          cases hr : genDummyCodeStmts rest v1 with
          | none => simp [hr] at h
          | some pr2 =>
            obtain ⟨sts2, v2⟩ := pr2
            simp only [hr, Option.some.injEq, Prod.mk.injEq] at h
            rw [← h.2]
            exact varsEvolve_trans (genDummyVarName_evolve hg) (ih hr)
      · cases hg : genDummyVarName lo.nameDraws vars with
        | none => simp [hg] at h
        | some pr =>
          obtain ⟨nm, v1⟩ := pr
          simp only [hg] at h
          cases hr : genDummyCodeStmts rest v1 with
          | none => simp [hr] at h
          | some pr2 =>
            obtain ⟨sts2, v2⟩ := pr2
            simp only [hr, Option.some.injEq, Prod.mk.injEq] at h
            rw [← h.2]
            exact varsEvolve_trans (genDummyVarName_evolve hg) (ih hr)

theorem genDummyCodeT_evolve {los : List LineO} {vars v' : List Text} {d : Text}
    (h : genDummyCodeT los vars = some (d, v')) : varsEvolve vars v' := by
  unfold genDummyCodeT at h
  cases hg : genDummyCodeStmts los vars with
  | none => simp [hg] at h
  | some pr =>
    simp only [hg, Option.map_some', Option.some.injEq, Prod.mk.injEq] at h
    rw [← h.2]
    exact genDummyCodeStmts_evolve hg

theorem genFalseFlow_evolve :
    ∀ (ff : FFO) {vars : List Text} {d : Text} {v' : List Text},
      genFalseFlow ff vars = some (d, v') → varsEvolve vars v' := by
  intro ff
  induction ff with
  | plain lines =>
    intro vars d v' h
    exact genDummyCodeT_evolve h
  | branched pre mid kind evalTo i1 i2 ti inner post ih =>
    intro vars d v' h
    simp only [genFalseFlow] at h
    cases h1 : genDummyCodeT pre vars with
    | none => simp [h1] at h
    | some pr1 =>
      obtain ⟨d1, v1⟩ := pr1
      simp only [h1] at h
      cases h2 : genDummyCodeT mid v1 with
      | none => simp [h2] at h
      | some pr2 =>
        obtain ⟨dm, v2⟩ := pr2
        simp only [h2] at h
        cases h3 : genFalseFlow inner v2 with
        | none => simp [h3] at h
        | some pr3 =>
          obtain ⟨db, v3⟩ := pr3
          simp only [h3] at h
          cases h4 : genDummyCodeT post v3 with
          | none => simp [h4] at h
          | some pr4 =>
            obtain ⟨d3, v4⟩ := pr4
            simp only [h4, Option.some.injEq, Prod.mk.injEq] at h
            rw [← h.2]
            exact varsEvolve_trans (genDummyCodeT_evolve h1)
              (varsEvolve_trans (genDummyCodeT_evolve h2)
                (varsEvolve_trans (ih h3) (genDummyCodeT_evolve h4)))

theorem insertIfElse_evolve {payload : Text} {g : GuardO} {vars : List Text}
    {out : Text} {v' : List Text}
    (h : insertIfElse payload g vars = some (out, v')) : varsEvolve vars v' := by
  unfold insertIfElse at h
  cases hf : genFalseFlow g.ff vars with
  | none => simp [hf] at h
  | some pr =>
    obtain ⟨dd, vv⟩ := pr
    simp only [hf, Option.some.injEq, Prod.mk.injEq] at h
    rw [← h.2]
    exact genFalseFlow_evolve g.ff hf

theorem insertSwitch_evolve {payload : Text} {g : GuardO} {vars : List Text}
    {out : Text} {v' : List Text}
    (h : insertSwitch payload g vars = some (out, v')) : varsEvolve vars v' := by
  unfold insertSwitch at h
  cases hf : genFalseFlow g.ff vars with
  | none => simp [hf] at h
  | some pr =>
    obtain ⟨dd, vv⟩ := pr
    simp only [hf, Option.some.injEq, Prod.mk.injEq] at h
    rw [← h.2]
    exact genFalseFlow_evolve g.ff hf

theorem cfoLoop_evolve :
    ∀ {its : List (Bool × GuardO)} {ml : Text} {vars : List Text}
      {draws : List Bool} {ml' : Text} {v' : List Text},
      cfoLoop ml vars its draws = some (ml', v') → varsEvolve vars v' := by
  intro its
  induction its with
  | nil => intro ml vars draws ml' v' h; simp [cfoLoop] at h
  | cons it rest ih =>
    intro ml vars draws ml' v' h
    obtain ⟨kind, g⟩ := it
    simp only [cfoLoop] at h
    cases hi : (if kind then insertIfElse ml g vars else insertSwitch ml g vars) with
    | none => simp [hi] at h
    | some pr =>
      obtain ⟨mlI, vI⟩ := pr
      simp only [hi] at h
      have hev : varsEvolve vars vI := by
        by_cases hk : kind = true
        · rw [if_pos hk] at hi
          exact insertIfElse_evolve hi
        · rw [if_neg hk] at hi
          exact insertSwitch_evolve hi
      cases draws with
      | nil => simp at h
      | cons dd ds =>
        by_cases hd : dd = true
        · rw [hd] at h
          simp only [if_true] at h
          exact varsEvolve_trans hev (ih h)
        · have hdf : dd = false := by simpa using hd
          rw [hdf] at h
          simp only [Bool.false_eq_true, if_false, Option.some.injEq,
            Prod.mk.injEq] at h
          rw [← h.2]
          exact hev

theorem injectLines_evolve :
    ∀ {ls : List Text} {d : Int} {o : List (List LineO)} {vars : List Text}
      {out : Text} {v' : List Text},
      injectLines d ls o vars = some (out, v') → varsEvolve vars v' := by
  intro ls
  induction ls with
  | nil =>
    intro d o vars out v' h
    simp only [injectLines, Option.some.injEq, Prod.mk.injEq] at h
    rw [← h.2]
    exact varsEvolve_refl _
  | cons l rest ih =>
    intro d o vars out v' h
    simp only [injectLines] at h
    split at h
    · cases o with
      | nil => simp at h
      | cons lo o' =>
        cases hg : genDummyCodeT lo vars with
        | none => simp [hg] at h
        | some pr =>
          obtain ⟨dc, v1⟩ := pr
          simp only [hg] at h
          cases hr : injectLines (d + lineDepthDelta l) rest o' v1 with
          | none => simp [hr] at h
          | some pr2 =>
            obtain ⟨ro, v2⟩ := pr2
            simp only [hr, Option.some.injEq, Prod.mk.injEq] at h
            rw [← h.2]
            exact varsEvolve_trans (genDummyCodeT_evolve hg) (ih hr)
    · cases hr : injectLines (d + lineDepthDelta l) rest o vars with
      | none => simp [hr] at h
      | some pr2 =>
        obtain ⟨ro, v2⟩ := pr2
        simp only [hr, Option.some.injEq, Prod.mk.injEq] at h
        rw [← h.2]
        exact ih hr

theorem controlFlowObfuscation_evolve {s : SmartObfuscator} {o : CfoO}
    {t : Text} {s' : SmartObfuscator}
    (h : controlFlowObfuscation s o = some (t, s')) :
    varsEvolve s.initDummyVars s'.initDummyVars := by
  unfold controlFlowObfuscation at h
  cases hs : splitMainLogic s.yulCode with
  | error err => simp [hs] at h
  | ok tr =>
    obtain ⟨p, m, e⟩ := tr
    simp only [hs] at h
    cases hl : cfoLoop m s.initDummyVars o.iters o.contDraws with
    | none => simp [hl] at h
    | some pr =>
      obtain ⟨ml', vars'⟩ := pr
      simp only [hl] at h
      cases hi : injectLines 1 (splitNl ml') o.injectO vars' with
      | none => simp [hi] at h
      | some pr2 =>
        obtain ⟨oml, vars''⟩ := pr2
        simp only [hi, Option.some.injEq, Prod.mk.injEq] at h
        rw [← h.2]
        exact varsEvolve_trans (cfoLoop_evolve hl) (injectLines_evolve hi)

/-- C9: across any successful `control_flow_obfuscation` run — the only
operation sequence that touches the registry — the per-depth decoy name
list stays duplicate-free and is only ever appended to, never pruned:
`_generate_dummy_var_name` (the sole writer) appends exactly one name it
has just checked to be absent. -/
theorem c9_registry_nodup_append_only (s : SmartObfuscator) (o : CfoO)
    (t : Text) (s' : SmartObfuscator)
    (hn : s.initDummyVars.Nodup)
    (h : controlFlowObfuscation s o = some (t, s')) :
    s'.initDummyVars.Nodup ∧ s.initDummyVars <+: s'.initDummyVars := by
  have he := controlFlowObfuscation_evolve h
  exact ⟨he.2.1 hn, he.1⟩

theorem c9_witness :
    s0.initDummyVars.Nodup
    ∧ controlFlowObfuscation s0 o0 = some (t0, s0fin)
    ∧ (s0fin.initDummyVars.Nodup ∧ s0.initDummyVars <+: s0fin.initDummyVars) :=
  ⟨by decide, by decide,
   c9_registry_nodup_append_only s0 o0 t0 s0fin (by decide) (by decide)⟩

theorem isHeadSeq_append_self : ∀ (p x : Text), isHeadSeq p (p ++ x) = true := by
  intro p
  induction p with
  | nil => intro x; rfl
  | cons c cs ih => intro x; simp [isHeadSeq, ih]

theorem isHeadSeq_mono :
    ∀ {p l : Text}, isHeadSeq p l = true → ∀ x, isHeadSeq p (l ++ x) = true := by
  intro p
  induction p with
  | nil => intro l h x; rfl
  | cons c cs ih =>
    intro l h x
    cases l with
    | nil => simp [isHeadSeq] at h
    | cons a as =>
      simp only [isHeadSeq, List.cons_append, Bool.and_eq_true,
        decide_eq_true_eq] at h ⊢
      exact ⟨h.1, ih h.2 x⟩

theorem hasSub_of_isHeadSeq {p l : Text} (h : isHeadSeq p l = true) :
    hasSub p l = true := by
  cases l with
  | nil => simpa [hasSub] using h
  | cons c cs => simp [hasSub, h]

theorem hasSub_append_right :
    ∀ (a : Text) {p b : Text}, hasSub p b = true → hasSub p (a ++ b) = true := by
  intro a
  induction a with
  | nil => intro p b h; simpa using h
  | cons c cs ih =>
    intro p b h
    simp only [List.cons_append, hasSub, Bool.or_eq_true]
    exact Or.inr (ih h)

theorem hasSub_append_left :
    ∀ {p a : Text}, hasSub p a = true → ∀ b, hasSub p (a ++ b) = true := by
  intro p a
  induction a with
  | nil =>
    intro h b
    simp only [hasSub] at h
    exact hasSub_of_isHeadSeq (by simpa using isHeadSeq_mono h b)
  | cons c cs ih =>
    intro h b
    simp only [hasSub, Bool.or_eq_true] at h
    rcases h with h | h
    · exact hasSub_of_isHeadSeq (by simpa using isHeadSeq_mono h b)
    · simp only [List.cons_append, hasSub, Bool.or_eq_true]
      exact Or.inr (ih h b)

theorem cfo_output_frame {s : SmartObfuscator} {o : CfoO} {t : Text}
    {s' : SmartObfuscator} {p m e : Text}
    (hs : splitMainLogic s.yulCode = .ok (p, m, e))
    (h : controlFlowObfuscation s o = some (t, s')) :
    startsWithSeq p t = true ∧ endsWithSeq e t = true := by
  unfold controlFlowObfuscation at h
  simp only [hs] at h
  cases hl : cfoLoop m s.initDummyVars o.iters o.contDraws with
  | none => simp [hl] at h
  | some pr =>
    obtain ⟨ml', vars'⟩ := pr
    simp only [hl] at h
    cases hi : injectLines 1 (splitNl ml') o.injectO vars' with
    | none => simp [hi] at h
    | some pr2 =>
      obtain ⟨oml, vars''⟩ := pr2
      simp only [hi, Option.some.injEq, Prod.mk.injEq] at h
      have ht : t = p ++ (oml ++ e) := by
        rw [← h.1, List.append_assoc]
      constructor
      · rw [ht]
        exact isHeadSeq_append_self p (oml ++ e)
      · rw [ht]
        unfold endsWithSeq
        rw [List.reverse_append, List.reverse_append]
        rw [List.append_assoc]
        exact isHeadSeq_append_self e.reverse (oml.reverse ++ p.reverse)

/-- C6: for any two successful runs of `control_flow_obfuscation` on the
same instance, each output begins with exactly the prolog and ends with
exactly the epilog computed by `_split_main_logic` on that input — only the
main-logic region between them is transformed, and both runs share the
identical prolog and epilog. -/
theorem c6_frame_prolog_epilog (s : SmartObfuscator) (o1 o2 : CfoO)
    (p m e t1 t2 : Text) (s1 s2 : SmartObfuscator)
    (hs : splitMainLogic s.yulCode = .ok (p, m, e))
    (h1 : controlFlowObfuscation s o1 = some (t1, s1))
    (h2 : controlFlowObfuscation s o2 = some (t2, s2)) :
    (startsWithSeq p t1 = true ∧ endsWithSeq e t1 = true)
    ∧ (startsWithSeq p t2 = true ∧ endsWithSeq e t2 = true) :=
  ⟨cfo_output_frame hs h1, cfo_output_frame hs h2⟩

theorem c6_witness :
    splitMainLogic s0.yulCode = Except.ok (p0, m0, e0)
    ∧ controlFlowObfuscation s0 o0 = some (t0, s0fin)
    ∧ (startsWithSeq p0 t0 = true ∧ endsWithSeq e0 t0 = true) :=
  ⟨by rfl, by decide,
   (c6_frame_prolog_epilog s0 o0 o0 p0 m0 e0 t0 t0 s0fin s0fin
     (by rfl) (by decide) (by decide)).1⟩

theorem nlFreeB_renderTemplate {tpl : Template} {a b : Text}
    (h : tpl.all pieceNlFreeB = true) (ha : nlFreeB a = true)
    (hb : nlFreeB b = true) :
    nlFreeB (renderTemplate tpl a b) = true := by
  induction tpl with
  | nil => rfl
  | cons p rest ih =>
    simp only [List.all_cons, Bool.and_eq_true] at h
    have hr := ih h.2
    simp only [renderTemplate, List.map_cons, List.flatten_cons] at hr ⊢
    cases p with
    | lit t => exact nlFreeB_append (by simpa [pieceNlFreeB] using h.1) hr
    | v1 => exact nlFreeB_append ha hr
    | v2 => exact nlFreeB_append hb hr

theorem nlFreeB_genOpaquePredicate (evalTo : Bool) (i1 i2 ti : Nat)
    {vars : List Text} (hv : ∀ x ∈ vars, nlFreeB x = true) :
    nlFreeB (genOpaquePredicate evalTo i1 i2 ti vars) = true := by
  have ht : ∀ tpl ∈ truePredTemplates, tpl.all pieceNlFreeB = true := by decide
  have hf : ∀ tpl ∈ falsePredTemplates, tpl.all pieceNlFreeB = true := by decide
  by_cases h2 : vars.length < 2
  · simp only [genOpaquePredicate, if_pos h2]
    cases evalTo <;> decide
  · simp only [genOpaquePredicate, if_neg h2]
    cases evalTo with
    | true =>
      rw [if_pos rfl]
      exact nlFreeB_renderTemplate
        (getD_prop (fun tpl => tpl.all pieceNlFreeB = true) truePredTemplates _ [] ht rfl)
        (getD_prop (fun x => nlFreeB x = true) vars _ [] hv rfl)
        (getD_prop (fun x => nlFreeB x = true) vars _ [] hv rfl)
    | false =>
      rw [if_neg (by simp)]
      exact nlFreeB_renderTemplate
        (getD_prop (fun tpl => tpl.all pieceNlFreeB = true) falsePredTemplates _ [] hf rfl)
        (getD_prop (fun x => nlFreeB x = true) vars _ [] hv rfl)
        (getD_prop (fun x => nlFreeB x = true) vars _ [] hv rfl)

theorem renderIfElse_shape (evalTo : Bool) (pred payload dummy : Text)
    (hp : nlFreeB pred = true) :
    guardHeadShape (renderIfElse evalTo pred payload dummy) := by
  left
  refine ⟨pred, (if evalTo then payload else dummy) ++ ("\n\x7d else \x7b\n".toList) ++
    ((if evalTo then dummy else payload) ++ ("\n\x7d".toList)), hp, ?_⟩
  simp [renderIfElse, List.append_assoc]

theorem renderSwitch_shape (evalTo : Bool) (pred payload dummy : Text)
    (hp : nlFreeB pred = true) :
    guardHeadShape (renderSwitch evalTo pred payload dummy) := by
  right
  refine ⟨pred, (if evalTo then payload else dummy) ++ ("\ndefault:\n".toList) ++
    ((if evalTo then dummy else payload) ++ ("\n\x7d".toList)), hp, ?_⟩
  simp [renderSwitch, List.append_assoc]

theorem insertIfElse_shape {payload : Text} {g : GuardO} {vars : List Text}
    {out : Text} {v' : List Text}
    (h : insertIfElse payload g vars = some (out, v'))
    (hv : ∀ x ∈ vars, nlFreeB x = true) :
    guardHeadShape out := by
  unfold insertIfElse at h
  cases hf : genFalseFlow g.ff vars with
  | none => simp [hf] at h
  | some pr =>
    obtain ⟨dd, vv⟩ := pr
    simp only [hf, Option.some.injEq, Prod.mk.injEq] at h
    rw [← h.1]
    exact renderIfElse_shape _ _ _ _ (nlFreeB_genOpaquePredicate _ _ _ _ hv)

theorem insertSwitch_shape {payload : Text} {g : GuardO} {vars : List Text}
    {out : Text} {v' : List Text}
    (h : insertSwitch payload g vars = some (out, v'))
    (hv : ∀ x ∈ vars, nlFreeB x = true) :
    guardHeadShape out := by
  unfold insertSwitch at h
  cases hf : genFalseFlow g.ff vars with
  | none => simp [hf] at h
  | some pr =>
    obtain ⟨dd, vv⟩ := pr
    simp only [hf, Option.some.injEq, Prod.mk.injEq] at h
    rw [← h.1]
    exact renderSwitch_shape _ _ _ _ (nlFreeB_genOpaquePredicate _ _ _ _ hv)

theorem cfoLoop_guardHeadShape :
    ∀ {its : List (Bool × GuardO)} {ml : Text} {vars : List Text}
      {draws : List Bool} {ml' : Text} {v' : List Text},
      cfoLoop ml vars its draws = some (ml', v') →
      (∀ x ∈ vars, nlFreeB x = true) →
      guardHeadShape ml' := by
  intro its
  induction its with
  | nil => intro ml vars draws ml' v' h _; simp [cfoLoop] at h
  | cons it rest ih =>
    intro ml vars draws ml' v' h hv
    obtain ⟨kind, g⟩ := it
    simp only [cfoLoop] at h
    cases hi : (if kind then insertIfElse ml g vars else insertSwitch ml g vars) with
    | none => simp [hi] at h
    | some pr =>
      obtain ⟨mlI, vI⟩ := pr
      simp only [hi] at h
      have hshape : guardHeadShape mlI := by
        by_cases hk : kind = true
        · rw [if_pos hk] at hi
          exact insertIfElse_shape hi hv
        · rw [if_neg hk] at hi
          exact insertSwitch_shape hi hv
      have hvI : ∀ x ∈ vI, nlFreeB x = true := by
        by_cases hk : kind = true
        · rw [if_pos hk] at hi
          exact (insertIfElse_evolve hi).2.2 hv
        · rw [if_neg hk] at hi
          exact (insertSwitch_evolve hi).2.2 hv
      cases draws with
      | nil => simp at h
      | cons dd ds =>
        by_cases hd : dd = true
        · rw [hd] at h
          simp only [if_true] at h
          exact ih h hvI
        · have hdf : dd = false := by simpa using hd
          rw [hdf] at h
          simp only [Bool.false_eq_true, if_false, Option.some.injEq,
            Prod.mk.injEq] at h
          rw [← h.1]
          exact hshape

theorem splitNl_append_nlFree :
    ∀ {a : Text}, nlFreeB a = true → ∀ b, splitNl (a ++ '\n' :: b) = a :: splitNl b := by
  intro a
  induction a with
  | nil => intro _ b; simp [splitNl]
  | cons c cs ih =>
    intro h b
    simp only [nlFreeB, List.all_cons, Bool.and_eq_true, decide_eq_true_eq] at h
    have hcs := ih (by simpa [nlFreeB] using h.2) b
    simp only [List.cons_append, splitNl, List.append_eq]
    rw [if_neg h.1, hcs]

theorem pyStrip_eq_self {c z : Char} (hc : isPyWs c = false) (hz : isPyWs z = false)
    (xs : Text) : pyStrip (c :: (xs ++ [z])) = c :: (xs ++ [z]) := by
  unfold pyStrip
  rw [List.dropWhile_cons]
  rw [if_neg (by simp [hc])]
  have h1 : (c :: (xs ++ [z])).reverse = z :: (xs.reverse ++ [c]) := by
    simp
  rw [h1, List.dropWhile_cons]
  rw [if_neg (by simp [hz])]
  simp

theorem injectLines_hasSub {tok l1 : Text} {d : Int} {ls : List Text}
    {o : List (List LineO)} {vars : List Text} {out : Text} {v' : List Text}
    (h : injectLines d (l1 :: ls) o vars = some (out, v'))
    (hstrip : pyStrip l1 = l1)
    (hh : isHeadSeq tok l1 = true) :
    hasSub tok out = true := by
  simp only [injectLines] at h
  split at h
  · cases o with
    | nil => simp at h
    | cons lo o' =>
      cases hg : genDummyCodeT lo vars with
      | none => simp [hg] at h
      | some pr =>
        obtain ⟨dc, v1⟩ := pr
        simp only [hg] at h
        cases hr : injectLines (d + lineDepthDelta l1) ls o' v1 with
        | none => simp [hr] at h
        | some pr2 =>
          obtain ⟨ro, v2⟩ := pr2
          simp only [hr, Option.some.injEq, Prod.mk.injEq] at h
          rw [← h.1]
          refine hasSub_append_left ?_ ('\n' :: ro)
          refine hasSub_append_right dc ?_
          rw [hstrip]
          exact hasSub_of_isHeadSeq hh
  · cases hr : injectLines (d + lineDepthDelta l1) ls o vars with
    | none => simp [hr] at h
    | some pr2 =>
      obtain ⟨ro, v2⟩ := pr2
      simp only [hr, Option.some.injEq, Prod.mk.injEq] at h
      rw [← h.1]
      exact hasSub_append_left (hasSub_of_isHeadSeq hh) _

/-- C10: the wrap loop of `control_flow_obfuscation` always runs at least
once (`branch` starts at 0, below the branching coefficient 0.3, so the
body precedes the first draw — a successful run consumes at least one wrap
oracle entry), and consequently every successful output text contains at
least one injected guard token, `if ` or `switch `. -/
theorem c10_output_contains_guard (s : SmartObfuscator) (o : CfoO)
    (t : Text) (s' : SmartObfuscator)
    (hv : ∀ x ∈ s.initDummyVars, nlFreeB x = true)
    (h : controlFlowObfuscation s o = some (t, s')) :
    o.iters ≠ [] ∧
      (hasSub ("if ".toList) t = true ∨ hasSub ("switch ".toList) t = true) := by
  unfold controlFlowObfuscation at h
  cases hs : splitMainLogic s.yulCode with
  | error err => simp [hs] at h
  | ok tr =>
    obtain ⟨p, m, e⟩ := tr
    simp only [hs] at h
    cases hl : cfoLoop m s.initDummyVars o.iters o.contDraws with
    | none => simp [hl] at h
    | some pr =>
      obtain ⟨ml', vars'⟩ := pr
      simp only [hl] at h
      cases hi : injectLines 1 (splitNl ml') o.injectO vars' with
      | none => simp [hi] at h
      | some pr2 =>
        obtain ⟨oml, vars''⟩ := pr2
        simp only [hi, Option.some.injEq, Prod.mk.injEq] at h
        constructor
        · intro hits
          rw [hits] at hl
          simp [cfoLoop] at hl
        · have ht : t = p ++ oml ++ e := h.1.symm
          have hshape := cfoLoop_guardHeadShape hl hv
          have houtof : ∀ tok : Text, hasSub tok oml = true → hasSub tok t = true := by
            intro tok htok
            rw [ht]
            exact hasSub_append_left (hasSub_append_right p htok) e
          rcases hshape with ⟨pr1, rest, hnl, hml⟩ | ⟨pr1, rest, hnl, hml⟩
          · left
            apply houtof
            have e1 : ("if ").toList = ['i', 'f', ' '] := by decide
            have e2 : ((" \x7b")).toList = [' ', lbrace] := by decide
            have h1 : ml' = (("if ".toList) ++ pr1 ++ ((" \x7b").toList)) ++ ('\n' :: rest) := by
              rw [hml]
              simp [List.append_assoc]
            have hnlA : nlFreeB (("if ".toList) ++ pr1 ++ ((" \x7b").toList)) = true :=
              nlFreeB_append (nlFreeB_append (by decide) hnl) (by decide)
            have hsplit : splitNl ml' = (("if ".toList) ++ pr1 ++ ((" \x7b").toList)) :: splitNl rest := by
              rw [h1]
              exact splitNl_append_nlFree hnlA rest
            rw [hsplit] at hi
            have hfix : ("if ".toList) ++ pr1 ++ ((" \x7b").toList) =
                'i' :: ((['f', ' '] ++ pr1 ++ [' ']) ++ [lbrace]) := by
              rw [e1, e2]
              simp [List.append_assoc]
            have hstrip : pyStrip (("if ".toList) ++ pr1 ++ ((" \x7b").toList)) =
                ("if ".toList) ++ pr1 ++ ((" \x7b").toList) := by
              rw [hfix]
              exact pyStrip_eq_self (by decide) (by decide) _
            have hh : isHeadSeq ("if ".toList) (("if ".toList) ++ pr1 ++ ((" \x7b").toList)) = true :=
              isHeadSeq_mono (isHeadSeq_append_self _ pr1) _
            exact injectLines_hasSub hi hstrip hh
          · right
            apply houtof
            have e3 : ("switch ").toList = ['s', 'w', 'i', 't', 'c', 'h', ' '] := by decide
            have e4 : ((" \x7b case 0:")).toList =
                [' ', lbrace, ' ', 'c', 'a', 's', 'e', ' ', '0', ':'] := by decide
            have h1 : ml' = (("switch ".toList) ++ pr1 ++ ((" \x7b case 0:")).toList) ++ ('\n' :: rest) := by
              rw [hml]
              simp [List.append_assoc]
            have hnlA : nlFreeB (("switch ".toList) ++ pr1 ++ ((" \x7b case 0:")).toList) = true :=
              nlFreeB_append (nlFreeB_append (by decide) hnl) (by decide)
            have hsplit : splitNl ml' =
                (("switch ".toList) ++ pr1 ++ ((" \x7b case 0:")).toList) :: splitNl rest := by
              rw [h1]
              exact splitNl_append_nlFree hnlA rest
            rw [hsplit] at hi
            have hfix : ("switch ".toList) ++ pr1 ++ ((" \x7b case 0:")).toList =
                's' :: ((['w', 'i', 't', 'c', 'h', ' '] ++ pr1 ++
                  [' ', lbrace, ' ', 'c', 'a', 's', 'e', ' ', '0']) ++ [':']) := by
              rw [e3, e4]
              simp [List.append_assoc]
            have hstrip : pyStrip (("switch ".toList) ++ pr1 ++ ((" \x7b case 0:")).toList) =
                ("switch ".toList) ++ pr1 ++ ((" \x7b case 0:")).toList := by
              rw [hfix]
              exact pyStrip_eq_self (by decide) (by decide) _
            have hh : isHeadSeq ("switch ".toList)
                (("switch ".toList) ++ pr1 ++ ((" \x7b case 0:")).toList) = true :=
              isHeadSeq_mono (isHeadSeq_append_self _ pr1) _
            exact injectLines_hasSub hi hstrip hh

theorem c10_witness :
    controlFlowObfuscation s0 o0 = some (t0, s0fin)
    ∧ o0.iters ≠ []
    ∧ (hasSub ("if ".toList) t0 = true ∨ hasSub ("switch ".toList) t0 = true) :=
  ⟨by decide,
   (c10_output_contains_guard s0 o0 t0 s0fin (by decide) (by decide)).1,
   (c10_output_contains_guard s0 o0 t0 s0fin (by decide) (by decide)).2⟩
